import Mathlib

/-
  Verification development for the strmthumbnail repository.

  The repository is a Node.js media-automation service.  The definitions below
  are a shallow embedding of the concurrency core and its helpers:

  * `src/strmthumbnail/src/utils/taskQueue.js`   - bounded task queue
  * `src/strmthumbnail/src/routes/video.js`      - batch orchestrator (POST /process)
  * `src/strmthumbnail/server.js`                - legacy orchestrator and duration probe
  * `src/src/services/videoService.js`           - per-job processor, URL validation
  * `src/strmthumbnail/src/services/cacheService.js` - duration cache

  JavaScript runs the relevant code on a single-threaded event loop, so every
  synchronous run (code between two `await` suspension points) is atomic.  The
  stateful parts are embedded as explicit state passing; per-job settlement
  effects are folded over an arbitrary settlement order, which ranges over all
  interleavings the event loop can produce.  External effects (filesystem,
  HTTP, ffmpeg/ffprobe subprocesses) are oracles passed in as parameters, and
  the network calls a run performs are collected into an explicit action trace.
  JavaScript numbers that matter to the claims are modelled as `Rat` together
  with a separate `NaN` marker; machine floating point rounding plays no role
  in any claim settled here.
-/

namespace StrmThumbnail

/-! ## JavaScript string primitives

`String.prototype.includes`, `startsWith` and `toLowerCase` as used by
`videoService.validateUrl` / `validatePath`.  They are defined on the
underlying character lists so that the standard prefix/substring reasoning
stays elementary. -/

/-- `startsWithChars p h` is true when the character list `h` begins with `p`
(JavaScript `h.startsWith(p)` reading `h`, `p` as char arrays). -/
def startsWithChars : List Char → List Char → Bool
  | [], _ => true
  | _ :: _, [] => false
  | p :: ps, h :: hs => (p = h) && startsWithChars ps hs

/-- `containsChars h p` is true when `p` occurs contiguously anywhere in `h`
(JavaScript `h.includes(p)` on char arrays). -/
def containsChars : List Char → List Char → Bool
  | [], p => startsWithChars p []
  | h :: t, p => startsWithChars p (h :: t) || containsChars t p

/-- JavaScript `s.includes(pat)`. -/
def jsIncludes (s pat : String) : Bool :=
  containsChars s.data pat.data

/-- JavaScript `s.startsWith(pat)`. -/
def jsStartsWith (s pat : String) : Bool :=
  startsWithChars pat.data s.data

/-- JavaScript `s.toLowerCase()` (ASCII case mapping, which is all the code
relies on: hostnames and path literals). -/
def jsToLower (s : String) : String :=
  ⟨s.data.map Char.toLower⟩

theorem startsWithChars_contains (p h : List Char) (hp : startsWithChars p h = true) :
    containsChars h p = true := by
  cases h with
  | nil => simpa [containsChars] using hp
  | cons x t => simp [containsChars, hp]

theorem startsWithChars_map_toLower (p h : List Char) (hp : startsWithChars p h = true) :
    startsWithChars (p.map Char.toLower) (h.map Char.toLower) = true := by
  induction p generalizing h with
  | nil => simp [startsWithChars]
  | cons c ps ih =>
    cases h with
    | nil => simp [startsWithChars] at hp
    | cons d hs =>
      simp only [startsWithChars, Bool.and_eq_true, decide_eq_true_eq] at hp
      simp only [List.map_cons, startsWithChars, Bool.and_eq_true, decide_eq_true_eq]
      exact ⟨by rw [hp.1], ih hs hp.2⟩

/-! ## JavaScript numbers and Map

`JsNum` models the JavaScript numbers the duration pipeline manipulates: a
rational value or `NaN` (`parseFloat` of unparsable output, missing metadata).
`falsy` models boolean coercion `!x` (true for `0` and `NaN`), `isNaN` models
the global `isNaN` check. -/

inductive JsNum where
  | nan : JsNum
  | val : ℚ → JsNum
deriving DecidableEq, Repr

/-- JavaScript falsiness of a number (`!duration`): `0` and `NaN` are falsy. -/
def JsNum.falsy : JsNum → Bool
  | .nan => true
  | .val q => q = 0

/-- JavaScript `isNaN(duration)`. -/
def JsNum.isNaN : JsNum → Bool
  | .nan => true
  | .val _ => false

/-- JavaScript `Map.prototype.get`: first (unique) binding of the key. -/
def jsMapGet {α : Type} : List (String × α) → String → Option α
  | [], _ => none
  | (k1, v) :: t, k => if k1 = k then some v else jsMapGet t k

/-- JavaScript `Map.prototype.set`: update in place when the key is present
(a JS Map keeps the original insertion position), append otherwise. -/
def jsMapSet {α : Type} : List (String × α) → String → α → List (String × α)
  | [], k, v => [(k, v)]
  | (k1, v1) :: t, k, v => if k1 = k then (k1, v) :: t else (k1, v1) :: jsMapSet t k v

/-! ## Bounded task queue (`src/strmthumbnail/src/utils/taskQueue.js`)

`TaskQueue.add` busy-waits with `while (this.running >= this.concurrency)
await sleep(100)`, then performs `this.running++` in the same synchronous run
as the final guard check.  On the single-threaded event loop the final check
and the increment are therefore one atomic step: a job can only start when
`running < concurrency` holds at that step.  `finally` decrements `running`.
The queue is modelled as a transition system on the running counter. -/

/-- One observable scheduling event of `TaskQueue`: a job passing the
concurrency guard and starting (`this.running++`), or a job settling
(`finally`'s `this.running--`). -/
inductive QEvent where
  | start : QEvent
  | finish : QEvent
deriving DecidableEq, Repr

/-- The guarded transition of the running counter.  `start` is enabled only
below the concurrency ceiling, exactly as the `while` guard in
`TaskQueue.add`; `finish` requires a job to be running. -/
def qstep (concurrency running : Nat) : QEvent → Option Nat
  | .start => if running < concurrency then some (running + 1) else none
  | .finish => if running = 0 then none else some (running - 1)

/-- Run a whole schedule of queue events from a given running count; `none`
means the schedule is not realizable (an event fired while disabled). -/
def runTrace (concurrency : Nat) : Nat → List QEvent → Option Nat
  | r, [] => some r
  | r, e :: es =>
    match qstep concurrency r e with
    | some r2 => runTrace concurrency r2 es
    | none => none

theorem runTrace_le (concurrency : Nat) (es : List QEvent) :
    ∀ r0, r0 ≤ concurrency → ∀ r, runTrace concurrency r0 es = some r → r ≤ concurrency := by
  induction es with
  | nil =>
    intro r0 h0 r hr
    simp [runTrace] at hr
    omega
  | cons e es ih =>
    intro r0 h0 r hr
    cases e with
    | start =>
      by_cases hless : r0 < concurrency
      · simp [runTrace, qstep, hless] at hr
        exact ih (r0 + 1) (by omega) r hr
      · simp [runTrace, qstep, hless] at hr
    | finish =>
      by_cases hzero : r0 = 0
      · simp [runTrace, qstep, hzero] at hr
      · simp [runTrace, qstep, hzero] at hr
        exact ih (r0 - 1) (by omega) r hr

/-- Claim C2: for any concurrency limit and any realizable schedule of job starts
and settlements, the queue's running count stays at or below the limit
(every state along a schedule is the final state of a prefix schedule, so this
bounds every intermediate point), and the start transition is disabled
whenever the running count has reached the limit. -/
theorem taskQueue_running_bounded (concurrency : Nat) (es : List QEvent) (r : Nat) :
    (runTrace concurrency 0 es = some r → r ≤ concurrency) ∧
    (concurrency ≤ r → qstep concurrency r QEvent.start = none) := by
  constructor
  · exact runTrace_le concurrency es 0 (Nat.zero_le _) r
  · intro hge
    simp [qstep]
    omega

/-- Witness for C2: the concrete schedule start-start-finish under limit 2 is
realizable and ends with one job running, within the bound; and a queue at
capacity cannot start another job. -/
theorem taskQueue_running_bounded_witness :
    (1 : Nat) ≤ 2 ∧ qstep 2 5 QEvent.start = none :=
  ⟨(taskQueue_running_bounded 2 [QEvent.start, QEvent.start, QEvent.finish] 1).1
      (by decide),
   (taskQueue_running_bounded 2 [] 5).2 (by decide)⟩

/-! ## Task submission and result propagation (`taskQueue.js` `add`/`enqueue`/`processNext`)

`add(task)` awaits the slot, runs `await task()`, increments
`stats.completed` on success, increments `stats.failed` and rethrows on
error; the promise it returns therefore settles exactly once, with the job's
own result or error.  `enqueue(task, priority)` instead pushes the wrapper
object `\x7b task, priority \x7d` onto `this.queue` and returns `undefined`;
`processNext` shifts that wrapper and passes it to `add`, where `await task()`
invokes the *wrapper object* as a function.  Calling a non-function value in
JavaScript throws a `TypeError`, and the promise returned by that inner `add`
call is never observed by anyone. -/

/-- The cumulative statistics record of `TaskQueue` (`this.stats`). -/
structure QStats where
  total : Nat
  completed : Nat
  failed : Nat
  active : Nat
deriving DecidableEq, Repr

/-- A JavaScript value that `TaskQueue.add` may receive as its `task`
argument: the genuine zero-argument async function (whose invocation settles
with the given outcome), or the `\x7b task, priority \x7d` wrapper object that
`enqueue` stores and `processNext` forwards. -/
inductive JsCall (ε ρ : Type) where
  | jobFn : Except ε ρ → JsCall ε ρ
  | wrapperObj : Except ε ρ → Int → JsCall ε ρ

/-- How an `await task()` inside `add` settles. -/
inductive JsOutcome (ε ρ : Type) where
  | ok : ρ → JsOutcome ε ρ
  | err : ε → JsOutcome ε ρ
  | typeError : JsOutcome ε ρ

/-- JavaScript call semantics for `await task()`: a function settles with its
own outcome; invoking the wrapper object (not a function) throws `TypeError`. -/
def invokeTask {ε ρ : Type} : JsCall ε ρ → JsOutcome ε ρ
  | .jobFn (Except.ok r) => .ok r
  | .jobFn (Except.error e) => .err e
  | .wrapperObj _ _ => .typeError

/-- The outcome a caller of `add` should see if the queue mirrors the job
exactly (the specification-side mirror used for comparison). -/
def mirrorOutcome {ε ρ : Type} : Except ε ρ → JsOutcome ε ρ
  | Except.ok r => .ok r
  | Except.error e => .err e

/-- The settlement of one `TaskQueue.add(arg)` call after its slot is
acquired: `stats.total++` on entry, then the `try`/`catch` around
`await task()` (`completed++` and return the result, or `failed++` and
rethrow the same error).  The busy-wait before the slot only delays this step
and touches neither the outcome nor these counters. -/
def addSettle {ε ρ : Type} (st : QStats) (arg : JsCall ε ρ) : QStats × JsOutcome ε ρ :=
  let st1 := { st with total := st.total + 1 }
  match invokeTask arg with
  | .ok r => ({ st1 with completed := st1.completed + 1 }, .ok r)
  | .err e => ({ st1 with failed := st1.failed + 1 }, .err e)
  | .typeError => ({ st1 with failed := st1.failed + 1 }, .typeError)

/-- Priority of a queued value (`b.priority - a.priority` comparator field);
a bare function has no `priority` property, but only wrapper objects are ever
stored in `this.queue`. -/
def qPriority {ε ρ : Type} : JsCall ε ρ → Int
  | .jobFn _ => 0
  | .wrapperObj _ p => p

/-- Stable descending insertion used to model `this.queue.sort((a, b) =>
b.priority - a.priority)` (JavaScript sort is stable, so ties keep arrival
order). -/
def insertDesc {ε ρ : Type} (x : JsCall ε ρ) : List (JsCall ε ρ) → List (JsCall ε ρ)
  | [] => [x]
  | y :: t => if qPriority y < qPriority x then x :: y :: t else y :: insertDesc x t

/-- Stable sort by descending priority. -/
def sortDesc {ε ρ : Type} (l : List (JsCall ε ρ)) : List (JsCall ε ρ) :=
  l.foldl (fun acc x => insertDesc x acc) []

/-- `TaskQueue.enqueue(task, priority)`: push the wrapper object and re-sort.
It returns `undefined` — the caller receives no handle to the job. -/
def enqueueQ {ε ρ : Type} (queue : List (JsCall ε ρ)) (task : Except ε ρ) (priority : Int) :
    List (JsCall ε ρ) :=
  sortDesc (queue ++ [JsCall.wrapperObj task priority])

/-- `TaskQueue.processNext`: when the waiting queue is nonempty and a slot is
free, shift the stored wrapper and hand it to `add`.  The third component is
the settlement of that inner `add` call; the source discards it (the promise
is neither awaited nor returned), so no caller ever observes it. -/
def processNextQ {ε ρ : Type} (st : QStats) (running concurrency : Nat)
    (queue : List (JsCall ε ρ)) : QStats × List (JsCall ε ρ) × Option (JsOutcome ε ρ) :=
  match queue with
  | [] => (st, [], none)
  | t :: rest =>
    if running < concurrency then
      let s := addSettle st t
      (s.1, rest, some s.2)
    else (st, t :: rest, none)

/-- Claim C4 counterexample: a job with outcome `ok 42` submitted through
`enqueue` is stored as a wrapper object; when `processNext` dispatches it,
`add` invokes the wrapper as a function and the settlement is a `TypeError`,
not the job's own result — and that settlement is produced only in the
discarded third component, never delivered through any handle.  The claim as
stated (every submission's handle mirrors the job's own outcome, also for
jobs that wait in the queue) is therefore false. -/
theorem enqueue_dispatch_rewrites_outcome :
    enqueueQ ([] : List (JsCall String Nat)) (Except.ok 42) 0 =
      [JsCall.wrapperObj (Except.ok 42) 0] ∧
    (processNextQ ⟨0, 0, 0, 0⟩ 0 4
        ([JsCall.wrapperObj (Except.ok 42) 0] : List (JsCall String Nat))).2.2 =
      some JsOutcome.typeError ∧
    (JsOutcome.typeError : JsOutcome String Nat) ≠ JsOutcome.ok 42 :=
  ⟨rfl, rfl, fun h => nomatch h⟩

/-- Claim C4 amended: for every job submitted through `TaskQueue.add` — including
jobs that wait in `add`'s guard loop before being dispatched, since the wait
precedes and does not alter the settlement — the returned handle settles
exactly once with precisely the job's own result or error (the queue observes
a failure only to increment `stats.failed`, a success only to increment
`stats.completed`, and re-signals the job's outcome unchanged).  Jobs placed
on the internal waiting queue by `enqueue`, however, get no handle: `enqueue`
returns nothing, and `processNext` dispatches the stored wrapper object,
whose invocation yields a `TypeError` recorded only in the statistics. -/
theorem add_mirrors_job_outcome {ε ρ : Type} (st : QStats) (o : Except ε ρ) :
    (addSettle st (JsCall.jobFn o)).2 = mirrorOutcome o ∧
    (addSettle st (JsCall.jobFn o)).1.total = st.total + 1 ∧
    (addSettle st (JsCall.jobFn o)).1.completed =
      (match o with | Except.ok _ => st.completed + 1 | Except.error _ => st.completed) ∧
    (addSettle st (JsCall.jobFn o)).1.failed =
      (match o with | Except.ok _ => st.failed | Except.error _ => st.failed + 1) ∧
    (∀ task priority, (processNextQ st 0 4 (enqueueQ [] task priority)).2.2 =
      some (JsOutcome.typeError : JsOutcome ε ρ)) := by
  refine ⟨?_, ?_, ?_, ?_, ?_⟩
  · cases o <;> rfl
  · cases o <;> rfl
  · cases o <;> rfl
  · cases o <;> rfl
  · intro task priority
    rfl

/-! ## Batch orchestrators

Two orchestrators exist in the repository.

`src/strmthumbnail/src/routes/video.js` (POST /process): for each file it
submits to the queue a closure that awaits
`videoService.processVideo(file, ...)` and then, synchronously, updates the
shared `progress` record and emits events.  `processVideo` returns
`\x7b success: true \x7d`, `\x7b success: true, skipped: true \x7d`, or
`\x7b success: false \x7d` — but it can also *reject*, because
`this.validatePath(strmFile)` is evaluated before its `try` block.  A skipped
result increments only `processed`; a rejection propagates out of the task,
so `await Promise.all(...)` rejects and the `complete` event is never sent.

`src/strmthumbnail/server.js` (`processVideo`): the whole body sits inside
`try`/`catch`, the skip path increments both `processed` and `success`, and
the function never rejects, so the legacy stream always reaches `complete`.

Each settlement's counter updates and event emissions form one synchronous
run on the event loop, so a batch execution is a fold over the jobs in some
settlement order; quantifying over all job lists covers every order.  The
`log` events carry human-readable text irrelevant to every claim about them
(only their presence matters), so the payload is not modelled. -/

/-- The aggregate progress record of one batch
(`\x7b total, processed, success, failed \x7d`). -/
structure Progress where
  total : Nat
  processed : Nat
  success : Nat
  failed : Nat
deriving DecidableEq, Repr

/-- Settlement classification of one job in the refactored orchestrator:
`processVideo` resolved with success, with `skipped: true`, with
`success: false`, or rejected (its pre-`try` path validation threw). -/
inductive JobResult where
  | ok : JobResult
  | skipped : JobResult
  | failure : JobResult
  | thrown : JobResult
deriving DecidableEq, Repr

/-- One server-sent event, by type tag.  `log` payloads are immaterial to the
claims and are not carried. -/
inductive Ev where
  | log : Ev
  | progress : Progress → Ev
  | failedEv : String → Ev
  | complete : Progress → List String → Ev
deriving DecidableEq, Repr

/-- Settle the jobs of a batch in order through the refactored task closure
(`routes/video.js` lines 158-176): on `success` without `skipped`,
`progress.success++`; on failure, `progress.failed++`, push the file onto
`failedFiles` and emit a `failed` event; in both resolved cases
`progress.processed++` and a full `progress` snapshot is emitted.  A rejected
job runs none of this closure code.  Returns the emitted events, the final
progress record and the final failed-files list. -/
def runJobsR : Progress → List String → List (String × JobResult) →
    List Ev × Progress × List String
  | p, fl, [] => ([], p, fl)
  | p, fl, (_, .ok) :: rest =>
    let p2 := { p with success := p.success + 1, processed := p.processed + 1 }
    let r := runJobsR p2 fl rest
    (Ev.progress p2 :: r.1, r.2)
  | p, fl, (_, .skipped) :: rest =>
    let p2 := { p with processed := p.processed + 1 }
    let r := runJobsR p2 fl rest
    (Ev.progress p2 :: r.1, r.2)
  | p, fl, (f, .failure) :: rest =>
    let p2 := { p with failed := p.failed + 1, processed := p.processed + 1 }
    let r := runJobsR p2 (fl ++ [f]) rest
    (Ev.failedEv f :: Ev.progress p2 :: r.1, r.2)
  | p, fl, (_, .thrown) :: rest => runJobsR p fl rest

/-- Whether some job of the batch rejected (which makes `Promise.all` reject
before the `complete` line is reached). -/
def anyThrown (jobs : List (String × JobResult)) : Bool :=
  jobs.any fun j => match j.2 with | .thrown => true | _ => false

/-- Final progress record and failed-files list of a batch in the refactored
orchestrator. -/
def finalR (jobs : List (String × JobResult)) : Progress × List String :=
  (runJobsR ⟨jobs.length, 0, 0, 0⟩ [] jobs).2

/-- The full event stream of one POST /process batch in the refactored
orchestrator: the unconditional startup `log` line (concurrency
announcement), the settlement events, and — only if no job rejected, since a
rejected `Promise.all` abandons the handler — the single `complete` event. -/
def runBatchR (jobs : List (String × JobResult)) : List Ev :=
  Ev.log :: (runJobsR ⟨jobs.length, 0, 0, 0⟩ [] jobs).1 ++
    (if anyThrown jobs then [] else [Ev.complete (finalR jobs).1 (finalR jobs).2])

/-- Settlement classification for the legacy `server.js` `processVideo`,
which never rejects: success, skipped, or failed. -/
inductive JobResultL where
  | okL : JobResultL
  | skippedL : JobResultL
  | failureL : JobResultL
deriving DecidableEq, Repr

/-- Settle the jobs of a batch through the legacy `server.js` `processVideo`:
the skip path increments `processed` and `success` and emits its own
`progress` snapshot; the success path increments both and the trailing
`sendEvent` emits the snapshot; the catch path emits the error log and the
`failed` event, pushes onto `failedFiles`, increments `processed` and
`failed`, and the trailing `sendEvent` emits the snapshot. -/
def runJobsL : Progress → List String → List (String × JobResultL) →
    List Ev × Progress × List String
  | p, fl, [] => ([], p, fl)
  | p, fl, (_, .okL) :: rest =>
    let p2 := { p with processed := p.processed + 1, success := p.success + 1 }
    let r := runJobsL p2 fl rest
    (Ev.log :: Ev.progress p2 :: r.1, r.2)
  | p, fl, (_, .skippedL) :: rest =>
    let p2 := { p with processed := p.processed + 1, success := p.success + 1 }
    let r := runJobsL p2 fl rest
    (Ev.log :: Ev.progress p2 :: r.1, r.2)
  | p, fl, (f, .failureL) :: rest =>
    let p2 := { p with processed := p.processed + 1, failed := p.failed + 1 }
    let r := runJobsL p2 (fl ++ [f]) rest
    (Ev.log :: Ev.failedEv f :: Ev.progress p2 :: r.1, r.2)

/-- The full settlement-level event stream of one legacy batch: startup log,
settlement events, and the `complete` event, which is always reached because
no legacy job rejects. -/
def runBatchL (jobs : List (String × JobResultL)) : List Ev :=
  let r := runJobsL ⟨jobs.length, 0, 0, 0⟩ [] jobs
  Ev.log :: r.1 ++ [Ev.complete r.2.1 r.2.2]

/-- Recognizer for `complete` events. -/
def isCompleteEv : Ev → Bool
  | .complete _ _ => true
  | _ => false

/-! ## URL and path validation (`src/src/services/videoService.js`)

`validateUrl` first checks well-formedness with `validator.isURL(url,
protocols http/https, require protocol)` — abstracted as the
`isHttpUrl` flag of the parsed URL, since no claim depends on the parser's
internals — then lowercases `new URL(url).hostname` and throws when any entry
of `blockedPatterns` occurs as a substring (`hostname.includes(pattern)`).
`validatePath` resolves the path and throws when the resolved path starts
with a blocked system directory; jobs are modelled with already-absolute
normalized paths, on which `path.resolve` is the identity. -/

/-- A parsed URL as far as `validateUrl` inspects it: whether
`validator.isURL` accepts it as a well-formed http/https URL, and its
hostname. -/
structure UrlInfo where
  isHttpUrl : Bool
  hostname : String
deriving DecidableEq, Repr

/-- The SSRF blocklist of `validateUrl`, verbatim from the source. -/
def blockedPatterns : List String :=
  ["localhost", "127.0.0.1", "0.0.0.0", "::1", "169.254", "192.168", "10.", "172.16"]

/-- `VideoService.validateUrl`: reject malformed URLs, then reject when the
lowercased hostname contains any blocked pattern as a substring.  Error
values stand for the two thrown messages (invalid format / blocked internal
address). -/
def validateUrl (u : UrlInfo) : Except String Unit :=
  if !u.isHttpUrl then Except.error "invalid URL format"
  else if blockedPatterns.any (fun pat => jsIncludes (jsToLower u.hostname) pat) then
    Except.error "internal network address forbidden"
  else Except.ok ()

/-- The blocked system directories of `VideoService.validatePath`. -/
def blockedPaths : List String :=
  ["/etc", "/sys", "/proc", "/dev", "/root", "/boot", "/usr/bin", "/usr/sbin"]

/-- `VideoService.validatePath` on an absolute normalized path: true when the
path is allowed, false when the method throws. -/
def validatePathOk (p : String) : Bool :=
  !(blockedPaths.any fun b => jsStartsWith p b)

/-! ## Per-job processor (`VideoService.processVideo` and its callees)

The pipeline for one `.strm` file, with every external effect supplied as an
oracle field of `ProcJob` and every network-touching call recorded in an
action trace:

1. `validatePath(strmFile)` — evaluated before the `try` block, so a blocked
   path makes the whole async function reject (`thrownOut`);
2. skip-existing check (`config.coverMode === '1'` and the thumbnail file
   already exists) — resolve `skipped`;
3. `fs.readFile` of the `.strm` file — a read error is caught, `failedOut`;
4. `validateUrl` on the file's URL — a throw is caught, `failedOut`, and no
   network call has been made;
5. `checkVideoUrl`: re-validate (already known good) and `axios.head`
   (network action `headCheck`); unreachable resolves `false`, which the
   caller turns into a thrown error, `failedOut`;
6. `getVideoDuration`: duration cache first; on miss `ffmpeg.ffprobe`
   (network action `probe`); a probe error, or a falsy/`NaN` duration, is
   caught by the caller, `failedOut`; on success the duration is cached;
7. `generateThumbnail`: `validatePath(outputPath)`, then the ffmpeg
   extraction reading the remote URL (network action `extract`), the
   `sharp` re-encode and the artifact size check (`< 1000` bytes fails);
8. `generateNFO` write; any error is caught, `failedOut`; otherwise `okOut`. -/

/-- Terminal classification of one `processVideo` call. -/
inductive ProcOutcome where
  | thrownOut : ProcOutcome
  | skippedOut : ProcOutcome
  | okOut : ProcOutcome
  | failedOut : ProcOutcome
deriving DecidableEq, Repr

/-- A network-touching call of the per-job pipeline. -/
inductive NetAct where
  | headCheck : NetAct
  | probe : NetAct
  | extract : NetAct
deriving DecidableEq, Repr

instance {ε α : Type} [DecidableEq ε] [DecidableEq α] : DecidableEq (Except ε α) := fun
  | Except.error a, Except.error b =>
    if h : a = b then .isTrue (congrArg Except.error h)
    else .isFalse (fun hh => h (Except.error.inj hh))
  | Except.error _, Except.ok _ => .isFalse (fun hh => Except.noConfusion hh)
  | Except.ok _, Except.error _ => .isFalse (fun hh => Except.noConfusion hh)
  | Except.ok a, Except.ok b =>
    if h : a = b then .isTrue (congrArg Except.ok h)
    else .isFalse (fun hh => h (Except.ok.inj hh))

/-- One job's input and effect oracles. -/
structure ProcJob where
  strmFile : String
  coverMode : String
  thumbExists : Bool
  readResult : Option UrlInfo
  urlString : String
  headOk : Bool
  probeResult : Except Unit JsNum
  outputPathOk : Bool
  extractResult : Except Unit Nat
  nfoWriteOk : Bool
deriving DecidableEq, Repr

/-- Stages 7-8 of the pipeline (thumbnail generation and NFO write), shared
by the cache-hit and cache-miss paths. -/
def thumbAndNfo (j : ProcJob) (acts : List NetAct) (cache : List (String × JsNum)) :
    ProcOutcome × List NetAct × List (String × JsNum) :=
  if !j.outputPathOk then (.failedOut, acts, cache)
  else
    match j.extractResult with
    | Except.error _ => (.failedOut, acts ++ [NetAct.extract], cache)
    | Except.ok size =>
      if size < 1000 then (.failedOut, acts ++ [NetAct.extract], cache)
      else if !j.nfoWriteOk then (.failedOut, acts ++ [NetAct.extract], cache)
      else (.okOut, acts ++ [NetAct.extract], cache)

/-- `VideoService.processVideo` over one job, returning the outcome, the
trace of network calls performed, and the duration cache after the call. -/
def processVideoR (cache : List (String × JsNum)) (j : ProcJob) :
    ProcOutcome × List NetAct × List (String × JsNum) :=
  if !(validatePathOk j.strmFile) then (.thrownOut, [], cache)
  else if j.coverMode = "1" && j.thumbExists then (.skippedOut, [], cache)
  else
    match j.readResult with
    | none => (.failedOut, [], cache)
    | some url =>
      match validateUrl url with
      | Except.error _ => (.failedOut, [], cache)
      | Except.ok _ =>
        if !j.headOk then (.failedOut, [NetAct.headCheck], cache)
        else
          match jsMapGet cache ("duration:" ++ j.urlString) with
          | some _ => thumbAndNfo j [NetAct.headCheck] cache
          | none =>
            match j.probeResult with
            | Except.error _ => (.failedOut, [NetAct.headCheck, NetAct.probe], cache)
            | Except.ok d =>
              if d.falsy || d.isNaN then
                (.failedOut, [NetAct.headCheck, NetAct.probe], cache)
              else
                thumbAndNfo j [NetAct.headCheck, NetAct.probe]
                  (jsMapSet cache ("duration:" ++ j.urlString) d)

/-- A job input whose `.strm` path sits under `/etc`: `validatePath` throws
before `processVideo`'s `try` block, so the call rejects. -/
def etcJob : ProcJob :=
  { strmFile := "/etc/passwd.strm"
    coverMode := "0"
    thumbExists := false
    readResult := some ⟨true, "example.com"⟩
    urlString := "http://example.com/v.mp4"
    headOk := true
    probeResult := Except.ok (JsNum.val 120)
    outputPathOk := true
    extractResult := Except.ok 50000
    nfoWriteOk := true }

/-- A job input that hits the skip-existing fast path (`coverMode === '1'`
and the thumbnail already present). -/
def skipJob : ProcJob :=
  { strmFile := "/media/a.strm"
    coverMode := "1"
    thumbExists := true
    readResult := some ⟨true, "example.com"⟩
    urlString := "http://example.com/v.mp4"
    headOk := true
    probeResult := Except.ok (JsNum.val 120)
    outputPathOk := true
    extractResult := Except.ok 50000
    nfoWriteOk := true }

/-! ## Orchestrator stream lemmas -/

/-- Number of jobs of a batch that settle (resolve rather than reject). -/
def settledCount : List (String × JobResult) → Nat
  | [] => 0
  | (_, .thrown) :: rest => settledCount rest
  | _ :: rest => settledCount rest + 1

theorem runJobsR_total (jobs : List (String × JobResult)) :
    ∀ p fl, ((runJobsR p fl jobs).2.1).total = p.total := by
  induction jobs with
  | nil => intro p fl; rfl
  | cons j rest ih =>
    intro p fl
    obtain ⟨f, res⟩ := j
    cases res <;> simp [runJobsR, ih]

theorem runJobsR_processed (jobs : List (String × JobResult)) :
    ∀ p fl, ((runJobsR p fl jobs).2.1).processed = p.processed + settledCount jobs := by
  induction jobs with
  | nil => intro p fl; simp [runJobsR, settledCount]
  | cons j rest ih =>
    intro p fl
    obtain ⟨f, res⟩ := j
    cases res <;> simp [runJobsR, settledCount, ih] <;> omega

theorem settledCount_of_not_thrown (jobs : List (String × JobResult))
    (h : anyThrown jobs = false) : settledCount jobs = jobs.length := by
  induction jobs with
  | nil => rfl
  | cons j rest ih =>
    obtain ⟨f, res⟩ := j
    simp only [anyThrown, List.any_cons, Bool.or_eq_false_iff] at h
    cases res with
    | thrown => simp at h
    | ok => simp [settledCount, ih (by simpa [anyThrown] using h.2)]
    | skipped => simp [settledCount, ih (by simpa [anyThrown] using h.2)]
    | failure => simp [settledCount, ih (by simpa [anyThrown] using h.2)]

theorem runJobsR_no_complete (jobs : List (String × JobResult)) :
    ∀ p fl q fls, Ev.complete q fls ∉ (runJobsR p fl jobs).1 := by
  induction jobs with
  | nil => intro p fl q fls; simp [runJobsR]
  | cons j rest ih =>
    intro p fl q fls
    obtain ⟨f, res⟩ := j
    cases res <;> simp [runJobsR, ih]

theorem runJobsR_progress_le (jobs : List (String × JobResult)) :
    ∀ p fl, p.success + p.failed ≤ p.processed →
      ∀ q, Ev.progress q ∈ (runJobsR p fl jobs).1 → q.success + q.failed ≤ q.processed := by
  induction jobs with
  | nil => intro p fl _ q hq; simp [runJobsR] at hq
  | cons j rest ih =>
    intro p fl hp q hq
    obtain ⟨f, res⟩ := j
    cases res with
    | ok =>
      simp only [runJobsR, List.mem_cons, Ev.progress.injEq] at hq
      rcases hq with h | h
      · subst h; simp; omega
      · exact ih _ fl (by simp; omega) q h
    | skipped =>
      simp only [runJobsR, List.mem_cons, Ev.progress.injEq] at hq
      rcases hq with h | h
      · subst h; simp; omega
      · exact ih _ fl (by simp; omega) q h
    | failure =>
      simp only [runJobsR, List.mem_cons, Ev.progress.injEq, reduceCtorEq, false_or] at hq
      rcases hq with h | h
      · subst h; simp; omega
      · exact ih _ (fl ++ [f]) (by simp; omega) q h
    | thrown =>
      simp only [runJobsR] at hq
      exact ih p fl hp q hq

theorem runJobsR_progress_eq (jobs : List (String × JobResult)) :
    ∀ p fl, (∀ j ∈ jobs, j.2 ≠ JobResult.skipped) → p.processed = p.success + p.failed →
      ∀ q, Ev.progress q ∈ (runJobsR p fl jobs).1 → q.processed = q.success + q.failed := by
  induction jobs with
  | nil => intro p fl _ _ q hq; simp [runJobsR] at hq
  | cons j rest ih =>
    intro p fl hns hp q hq
    obtain ⟨f, res⟩ := j
    have hrest : ∀ j ∈ rest, j.2 ≠ JobResult.skipped := fun j hj => hns j (List.mem_cons_of_mem _ hj)
    cases res with
    | ok =>
      simp only [runJobsR, List.mem_cons, Ev.progress.injEq] at hq
      rcases hq with h | h
      · subst h; simp; omega
      · exact ih _ fl hrest (by simp; omega) q h
    | skipped => exact absurd rfl (hns (f, JobResult.skipped) (List.mem_cons_self _ _))
    | failure =>
      simp only [runJobsR, List.mem_cons, Ev.progress.injEq, reduceCtorEq, false_or] at hq
      rcases hq with h | h
      · subst h; simp; omega
      · exact ih _ (fl ++ [f]) hrest (by simp; omega) q h
    | thrown =>
      simp only [runJobsR] at hq
      exact ih p fl hrest hp q hq

theorem runJobsL_total (jobs : List (String × JobResultL)) :
    ∀ p fl, ((runJobsL p fl jobs).2.1).total = p.total := by
  induction jobs with
  | nil => intro p fl; rfl
  | cons j rest ih =>
    intro p fl
    obtain ⟨f, res⟩ := j
    cases res <;> simp [runJobsL, ih]

theorem runJobsL_processed (jobs : List (String × JobResultL)) :
    ∀ p fl, ((runJobsL p fl jobs).2.1).processed = p.processed + jobs.length := by
  induction jobs with
  | nil => intro p fl; simp [runJobsL]
  | cons j rest ih =>
    intro p fl
    obtain ⟨f, res⟩ := j
    cases res <;> simp [runJobsL, ih] <;> omega

theorem runJobsL_no_complete (jobs : List (String × JobResultL)) :
    ∀ p fl q fls, Ev.complete q fls ∉ (runJobsL p fl jobs).1 := by
  induction jobs with
  | nil => intro p fl q fls; simp [runJobsL]
  | cons j rest ih =>
    intro p fl q fls
    obtain ⟨f, res⟩ := j
    cases res <;> simp [runJobsL, ih]

theorem runJobsL_progress_eq (jobs : List (String × JobResultL)) :
    ∀ p fl, p.processed = p.success + p.failed →
      ∀ q, Ev.progress q ∈ (runJobsL p fl jobs).1 → q.processed = q.success + q.failed := by
  induction jobs with
  | nil => intro p fl _ q hq; simp [runJobsL] at hq
  | cons j rest ih =>
    intro p fl hp q hq
    obtain ⟨f, res⟩ := j
    cases res with
    | okL =>
      simp only [runJobsL, List.mem_cons, Ev.progress.injEq, reduceCtorEq, false_or] at hq
      rcases hq with h | h
      · subst h; simp; omega
      · exact ih _ fl (by simp; omega) q h
    | skippedL =>
      simp only [runJobsL, List.mem_cons, Ev.progress.injEq, reduceCtorEq, false_or] at hq
      rcases hq with h | h
      · subst h; simp; omega
      · exact ih _ fl (by simp; omega) q h
    | failureL =>
      simp only [runJobsL, List.mem_cons, Ev.progress.injEq, reduceCtorEq, false_or] at hq
      rcases hq with h | h
      · subst h; simp; omega
      · exact ih _ (fl ++ [f]) (by simp; omega) q h

/-- Claim C1 counterexample: in the refactored orchestrator a batch consisting of
one job that `processVideo` resolves as skipped (here produced by the real
skip-existing path: `coverMode = '1'` with the thumbnail present) emits the
progress snapshot `total 1, processed 1, success 0, failed 0`, for which
`processed = succeeded + failed` is false — the skipped job counted toward
`processed` but not toward `success`. -/
theorem skipped_snapshot_breaks_sum :
    (processVideoR [] skipJob).1 = ProcOutcome.skippedOut ∧
    Ev.progress ⟨1, 1, 0, 0⟩ ∈ runBatchR [("a.strm", JobResult.skipped)] ∧
    ¬((⟨1, 1, 0, 0⟩ : Progress).processed =
      (⟨1, 1, 0, 0⟩ : Progress).success + (⟨1, 1, 0, 0⟩ : Progress).failed) := by
  decide

/-- Claim C1 amended: in the legacy `server.js` orchestrator every emitted progress
snapshot satisfies `processed = succeeded + failed` (skipped jobs increment
both `processed` and `success` there) and the `complete` event satisfies
`processed = total`.  In the refactored `routes/video.js` orchestrator a
skipped settlement increments `processed` only, so snapshots satisfy
`succeeded + failed ≤ processed`, with equality whenever the batch settles no
job as skipped; its `complete` event, when emitted, satisfies
`processed = total`. -/
theorem batch_progress_accounting :
    (∀ jobs p, Ev.progress p ∈ runBatchL jobs → p.processed = p.success + p.failed) ∧
    (∀ jobs p fl, Ev.complete p fl ∈ runBatchL jobs → p.processed = p.total) ∧
    (∀ jobs p, Ev.progress p ∈ runBatchR jobs → p.success + p.failed ≤ p.processed) ∧
    (∀ jobs, (∀ j ∈ jobs, j.2 ≠ JobResult.skipped) →
      ∀ p, Ev.progress p ∈ runBatchR jobs → p.processed = p.success + p.failed) ∧
    (∀ jobs p fl, Ev.complete p fl ∈ runBatchR jobs → p.processed = p.total) := by
  refine ⟨?_, ?_, ?_, ?_, ?_⟩
  · intro jobs p hp
    simp [runBatchL] at hp
    exact runJobsL_progress_eq jobs ⟨jobs.length, 0, 0, 0⟩ [] rfl p hp
  · intro jobs p fl hp
    simp [runBatchL] at hp
    rcases hp with h | ⟨h1, _⟩
    · exact absurd h (runJobsL_no_complete jobs _ [] p fl)
    · subst h1
      rw [runJobsL_processed jobs ⟨jobs.length, 0, 0, 0⟩ [],
        runJobsL_total jobs ⟨jobs.length, 0, 0, 0⟩ []]
      simp
  · intro jobs p hp
    cases h : anyThrown jobs <;> simp [runBatchR, h] at hp
    · exact runJobsR_progress_le jobs ⟨jobs.length, 0, 0, 0⟩ [] (by simp) p hp
    · exact runJobsR_progress_le jobs ⟨jobs.length, 0, 0, 0⟩ [] (by simp) p hp
  · intro jobs hns p hp
    cases h : anyThrown jobs <;> simp [runBatchR, h] at hp
    · exact runJobsR_progress_eq jobs ⟨jobs.length, 0, 0, 0⟩ [] hns rfl p hp
    · exact runJobsR_progress_eq jobs ⟨jobs.length, 0, 0, 0⟩ [] hns rfl p hp
  · intro jobs p fl hp
    cases h : anyThrown jobs <;> simp [runBatchR, h] at hp
    · rcases hp with h2 | ⟨h1, _⟩
      · exact absurd h2 (runJobsR_no_complete jobs _ [] p fl)
      · subst h1
        show ((runJobsR ⟨jobs.length, 0, 0, 0⟩ [] jobs).2.1).processed =
          ((runJobsR ⟨jobs.length, 0, 0, 0⟩ [] jobs).2.1).total
        rw [runJobsR_processed jobs ⟨jobs.length, 0, 0, 0⟩ [],
          runJobsR_total jobs ⟨jobs.length, 0, 0, 0⟩ [],
          settledCount_of_not_thrown jobs h]
        simp
    · exact absurd hp (runJobsR_no_complete jobs _ [] p fl)

/-- Witness for C1: the legacy batch with one failing job emits the snapshot
`total 1, processed 1, success 0, failed 1`, and the theorem yields
`processed = success + failed` there. -/
theorem batch_progress_accounting_witness :
    (⟨1, 1, 0, 1⟩ : Progress).processed =
      (⟨1, 1, 0, 1⟩ : Progress).success + (⟨1, 1, 0, 1⟩ : Progress).failed :=
  batch_progress_accounting.1 [("a.strm", JobResultL.failureL)] ⟨1, 1, 0, 1⟩ (by decide)

/-- Claim C3 counterexample: a batch containing the single job `/etc/passwd.strm`
makes `processVideo` reject (its pre-`try` `validatePath` throws on the
`/etc` path), `Promise.all` rejects, and the emitted stream contains no
`complete` event at all — contradicting the claim that the stream always
ends with exactly one `complete` event no matter how jobs fail. -/
theorem thrown_job_aborts_stream :
    (processVideoR [] etcJob).1 = ProcOutcome.thrownOut ∧
    (runBatchR [("/etc/passwd.strm", JobResult.thrown)]).countP isCompleteEv = 0 := by
  decide

/-- Claim C3 amended: as long as no job of the batch rejects before its own
error handling (every job settles as success, skipped or failure — in
particular a batch in which every job fails), the refactored orchestrator's
stream contains exactly one `complete` event, it is the final event, and it
carries the final aggregate counters and the full failed-files list; no
settled job's failure stops the stream.  A job whose `.strm` path is thrown
out by `validatePath` before the `try` block, however, rejects the task and
suppresses the terminal event. -/
theorem stream_completes_without_thrown (jobs : List (String × JobResult))
    (h : anyThrown jobs = false) :
    (runBatchR jobs).countP isCompleteEv = 1 ∧
    (runBatchR jobs).getLast? = some (Ev.complete (finalR jobs).1 (finalR jobs).2) := by
  have hzero : ((runJobsR ⟨jobs.length, 0, 0, 0⟩ [] jobs).1).countP isCompleteEv = 0 := by
    rw [List.countP_eq_zero]
    intro a ha
    cases a with
    | complete q fls => exact absurd ha (runJobsR_no_complete jobs _ [] q fls)
    | log => simp [isCompleteEv]
    | progress _ => simp [isCompleteEv]
    | failedEv _ => simp [isCompleteEv]
  constructor
  · simp [runBatchR, h, List.countP_cons, List.countP_append, hzero, isCompleteEv]
  · show (Ev.log :: (runJobsR ⟨jobs.length, 0, 0, 0⟩ [] jobs).1 ++
      (if anyThrown jobs then [] else [Ev.complete (finalR jobs).1 (finalR jobs).2])).getLast? =
      some (Ev.complete (finalR jobs).1 (finalR jobs).2)
    rw [h]
    simp only [Bool.false_eq_true, if_false, ← List.cons_append]
    exact List.getLast?_concat _

/-- Witness for C3: a batch whose only job fails still produces exactly one
`complete` event, as the last event, carrying the final counters and the
failed file. -/
theorem stream_completes_without_thrown_witness :
    (runBatchR [("a.strm", JobResult.failure)]).countP isCompleteEv = 1 ∧
    (runBatchR [("a.strm", JobResult.failure)]).getLast? =
      some (Ev.complete (finalR [("a.strm", JobResult.failure)]).1
        (finalR [("a.strm", JobResult.failure)]).2) :=
  stream_completes_without_thrown [("a.strm", JobResult.failure)] (by decide)

/-- Claim C5 counterexample: the empty batch's stream is not just the `complete`
event — the handler unconditionally emits the startup `log` line (the
concurrency announcement) before creating any task, so a `log` event is
emitted even for `identifiers = []`, contradicting the claim that no `log`
events are emitted at all. -/
theorem empty_batch_emits_startup_log :
    Ev.log ∈ runBatchR [] ∧
    runBatchR [] ≠ [Ev.complete ⟨0, 0, 0, 0⟩ []] := by
  decide

/-- Claim C5 amended: the empty batch immediately yields the startup `log` event
followed by exactly one `complete` event with all counters zero and an empty
failed-files list, and emits no `progress` or `failed` events. -/
theorem empty_batch_stream :
    runBatchR [] = [Ev.log, Ev.complete ⟨0, 0, 0, 0⟩ []] := by
  decide

theorem jsIncludes_toLower_of_jsStartsWith (h pat patL : String)
    (hpat : pat.data.map Char.toLower = patL.data)
    (hsw : jsStartsWith h pat = true) : jsIncludes (jsToLower h) patL = true := by
  have h1 : startsWithChars (pat.data.map Char.toLower) (h.data.map Char.toLower) = true :=
    startsWithChars_map_toLower pat.data h.data hsw
  rw [hpat] at h1
  exact startsWithChars_contains patL.data (h.data.map Char.toLower) h1

/-- A concrete job whose `.strm` file holds a URL into the 10.0.0.0/8 range. -/
def privJob : ProcJob :=
  { strmFile := "/media/a.strm"
    coverMode := "0"
    thumbExists := false
    readResult := some ⟨true, "10.0.0.5"⟩
    urlString := "http://10.0.0.5/v.mp4"
    headOk := true
    probeResult := Except.ok (JsNum.val 120)
    outputPathOk := true
    extractResult := Except.ok 50000
    nfoWriteOk := true }

/-- Claim C6: a job whose `.strm` file passes path validation, is not skipped, and
reads a well-formed http/https URL whose hostname points into 10.x.x.x,
169.254.x.x, 192.168.x.x, 172.16.x.x, or is 127.0.0.1, is rejected by
`validateUrl` (the lowercased hostname contains a blocked pattern), the job's
outcome is `failed`, and the trace of network calls performed by the job is
empty — no reachability check, probe or extraction was issued. -/
theorem private_url_rejected_before_network (cache : List (String × JsNum)) (j : ProcJob)
    (u : UrlInfo)
    (hread : j.readResult = some u)
    (hpath : validatePathOk j.strmFile = true)
    (hskip : (j.coverMode = "1" && j.thumbExists) = false)
    (hfmt : u.isHttpUrl = true)
    (hpriv : jsStartsWith u.hostname "10." = true ∨ jsStartsWith u.hostname "169.254" = true ∨
      jsStartsWith u.hostname "192.168" = true ∨ jsStartsWith u.hostname "172.16" = true ∨
      u.hostname = "127.0.0.1") :
    validateUrl u = Except.error "internal network address forbidden" ∧
    (processVideoR cache j).1 = ProcOutcome.failedOut ∧
    (processVideoR cache j).2.1 = [] := by
  have hany : blockedPatterns.any (fun pat => jsIncludes (jsToLower u.hostname) pat) = true := by
    rw [List.any_eq_true]
    rcases hpriv with h | h | h | h | h
    · exact ⟨"10.", by decide, jsIncludes_toLower_of_jsStartsWith u.hostname "10." "10."
        (by decide) h⟩
    · exact ⟨"169.254", by decide, jsIncludes_toLower_of_jsStartsWith u.hostname "169.254"
        "169.254" (by decide) h⟩
    · exact ⟨"192.168", by decide, jsIncludes_toLower_of_jsStartsWith u.hostname "192.168"
        "192.168" (by decide) h⟩
    · exact ⟨"172.16", by decide, jsIncludes_toLower_of_jsStartsWith u.hostname "172.16"
        "172.16" (by decide) h⟩
    · exact ⟨"127.0.0.1", by decide, by rw [h]; decide⟩
  have hvu : validateUrl u = Except.error "internal network address forbidden" := by
    simp [validateUrl, hfmt, hany]
  refine ⟨hvu, ?_, ?_⟩ <;> simp [processVideoR, hpath, hskip, hread, hvu]

/-- Witness for C6: a concrete job carrying `http://10.0.0.5/v.mp4` fails
with an empty network-call trace. -/
theorem private_url_rejected_before_network_witness :
    validateUrl ⟨true, "10.0.0.5"⟩ = Except.error "internal network address forbidden" ∧
    (processVideoR [] privJob).1 = ProcOutcome.failedOut ∧
    (processVideoR [] privJob).2.1 = [] :=
  private_url_rejected_before_network [] privJob ⟨true, "10.0.0.5"⟩ rfl (by decide) (by decide)
    rfl (Or.inl (by decide))

/-- Claim C10: `validateUrl` matches its blocklist entries as substrings anywhere
in the (lowercased) hostname: every well-formed URL whose hostname contains
one of `10.`, `172.16`, `192.168`, `169.254`, `localhost`, `127.0.0.1`
anywhere is rejected — in particular the public hostname
`cdn10.example.com` — while the private address `172.17.0.1`, which contains
none of the listed substrings, is accepted. -/
theorem validateUrl_substring_blocklist :
    (∀ u : UrlInfo, u.isHttpUrl = true →
      (∃ pat, pat ∈ ["10.", "172.16", "192.168", "169.254", "localhost", "127.0.0.1"] ∧
        jsIncludes (jsToLower u.hostname) pat = true) →
      validateUrl u = Except.error "internal network address forbidden") ∧
    validateUrl ⟨true, "cdn10.example.com"⟩ =
      Except.error "internal network address forbidden" ∧
    validateUrl ⟨true, "172.17.0.1"⟩ = Except.ok () := by
  refine ⟨?_, by decide, by decide⟩
  intro u hfmt ⟨pat, hmem, hinc⟩
  have hany : blockedPatterns.any (fun p => jsIncludes (jsToLower u.hostname) p) = true := by
    rw [List.any_eq_true]
    refine ⟨pat, ?_, hinc⟩
    simp at hmem
    rcases hmem with h | h | h | h | h | h <;> (subst h; decide)
  simp [validateUrl, hfmt, hany]

/-- Witness for C10: a hostname containing `localhost` in the middle is
rejected by the substring match. -/
theorem validateUrl_substring_blocklist_witness :
    validateUrl ⟨true, "my.localhost.net"⟩ =
      Except.error "internal network address forbidden" :=
  validateUrl_substring_blocklist.1 ⟨true, "my.localhost.net"⟩ rfl
    ⟨"localhost", by decide, by decide⟩

/-! ## Thumbnail position policy (`VideoService.generateThumbnail`)

The `seekTime` switch on `options.position`: a string among
`start`/`middle`/`end`/`auto`, or any other value, where the default branch
uses the value itself if it is a number and `duration / 2` otherwise.
`Math.random()` returns a value `r` with `0 ≤ r < 1`; the `auto` branch
computes `duration * (0.1 + r * 0.8)`.  JavaScript float literals `0.05`,
`0.95`, `0.1`, `0.8` are exact binary-representable-independent here only in
so far as the claim is about the formula; they are modelled as the exact
rationals written in the source. -/

/-- The JavaScript `position` option: a string or a number. -/
inductive PositionV where
  | pstr : String → PositionV
  | pnum : ℚ → PositionV
deriving DecidableEq, Repr

/-- The `seekTime` computation of `generateThumbnail`, with the
`Math.random()` draw passed in as `rand`. -/
def seekTime (duration : ℚ) (position : PositionV) (rand : ℚ) : ℚ :=
  match position with
  | .pstr "start" => min 5 (duration * (5 / 100))
  | .pstr "middle" => duration / 2
  | .pstr "end" => duration * (95 / 100)
  | .pstr "auto" => duration * (1 / 10 + rand * (8 / 10))
  | .pnum n => n
  | .pstr _ => duration / 2

/-- Claim C7 counterexample: `Math.random()` can return `0` (its range is
`[0, 1)`), and at `r = 0` the `auto` offset for a 10-second video is exactly
`10% of d`, not *strictly* between 10% and 90% as the claim states. -/
theorem auto_position_hits_lower_bound :
    (0 : ℚ) ≤ 0 ∧ (0 : ℚ) < 1 ∧
    seekTime 10 (PositionV.pstr "auto") 0 = 10 * (1 / 10) ∧
    ¬(10 * (1 / 10 : ℚ) < seekTime 10 (PositionV.pstr "auto") 0) := by
  norm_num [seekTime]

/-- Claim C7 amended: for every positive duration `d` and every `Math.random()`
draw `r ∈ [0, 1)`, the extraction offset is `min(5s, 5% of d)` for `start`,
`50% of d` for `middle`, `95% of d` for `end`, the given number itself for an
explicit numeric position, and for `auto` a point of `[10% of d, 90% of d)` —
at least 10% of `d` (with equality possible at `r = 0`) and strictly below
90% of `d`. -/
theorem seekTime_policy (d r : ℚ) (hd : 0 < d) (h0 : 0 ≤ r) (h1 : r < 1) :
    seekTime d (PositionV.pstr "start") r = min 5 (d * (5 / 100)) ∧
    seekTime d (PositionV.pstr "middle") r = d / 2 ∧
    seekTime d (PositionV.pstr "end") r = d * (95 / 100) ∧
    (∀ n : ℚ, seekTime d (PositionV.pnum n) r = n) ∧
    d * (1 / 10) ≤ seekTime d (PositionV.pstr "auto") r ∧
    seekTime d (PositionV.pstr "auto") r < d * (9 / 10) := by
  refine ⟨rfl, rfl, rfl, fun n => rfl, ?_, ?_⟩
  · show d * (1 / 10) ≤ d * (1 / 10 + r * (8 / 10))
    nlinarith [mul_nonneg hd.le h0]
  · show d * (1 / 10 + r * (8 / 10)) < d * (9 / 10)
    nlinarith [mul_pos hd (by linarith : (0 : ℚ) < 1 - r)]

/-- Witness for C7: at `d = 10`, `r = 1/2` the `auto` offset is strictly
below 90% of the duration. -/
theorem seekTime_policy_witness :
    seekTime 10 (PositionV.pstr "auto") (1 / 2) < 10 * (9 / 10) :=
  (seekTime_policy 10 (1 / 2) (by norm_num) (by norm_num) (by norm_num)).2.2.2.2.2

/-! ## Duration probing (`server.js` `getVideoDuration` and
`VideoService.getVideoDuration`)

The legacy `server.js` function: cache lookup first; on a miss run the
direct `ffprobe` of the URL and `parseFloat` its output; if that *command*
fails, download a 5 MB byte-range sample with `curl` and `ffprobe` the
sample (either step failing throws "cannot download sample"); then reject
when `!duration || isNaN(duration)` (zero, `NaN`, or no value), else cache
and return.  Note the falsy check runs after either strategy, and a
`parseFloat` that yields `NaN` from a *successful* direct probe does not
trigger the fallback.

The refactored `VideoService.getVideoDuration`: cache lookup first; on a
miss `validateUrl`, then a single `ffmpeg.ffprobe` of the URL — there is no
sample-download fallback in this implementation; the same
`!duration || isNaN(duration)` rejection; cache on success. -/

/-- External calls of the duration-probing functions. -/
inductive DlAct where
  | directProbe : DlAct
  | sampleDownload : DlAct
  | sampleProbe : DlAct
deriving DecidableEq, Repr

/-- Oracles for the legacy `getVideoDuration`: outcome of the direct
`ffprobe` command (`.ok` carries `parseFloat` of its stdout), of the `curl`
byte-range download, and of the `ffprobe` run on the downloaded sample. -/
structure ProbeEnv where
  direct : Except Unit JsNum
  sampleDl : Except Unit Unit
  sampleProbeRes : Except Unit JsNum
deriving DecidableEq, Repr

/-- Legacy `server.js` `getVideoDuration(videoUrl, baseName)`: returns the
settled value (duration or thrown message), the cache afterwards, and the
external calls performed. -/
def getVideoDurationL (cache : List (String × JsNum)) (url : String) (env : ProbeEnv) :
    Except String JsNum × List (String × JsNum) × List DlAct :=
  match jsMapGet cache ("duration:" ++ url) with
  | some d => (Except.ok d, cache, [])
  | none =>
    match env.direct with
    | Except.ok d =>
      if d.falsy || d.isNaN then (Except.error "cannot get duration", cache, [DlAct.directProbe])
      else (Except.ok d, jsMapSet cache ("duration:" ++ url) d, [DlAct.directProbe])
    | Except.error _ =>
      match env.sampleDl with
      | Except.error _ =>
        (Except.error "cannot download sample", cache, [DlAct.directProbe, DlAct.sampleDownload])
      | Except.ok _ =>
        match env.sampleProbeRes with
        | Except.error _ =>
          (Except.error "cannot download sample", cache,
            [DlAct.directProbe, DlAct.sampleDownload, DlAct.sampleProbe])
        | Except.ok d =>
          if d.falsy || d.isNaN then
            (Except.error "cannot get duration", cache,
              [DlAct.directProbe, DlAct.sampleDownload, DlAct.sampleProbe])
          else
            (Except.ok d, jsMapSet cache ("duration:" ++ url) d,
              [DlAct.directProbe, DlAct.sampleDownload, DlAct.sampleProbe])

/-- Refactored `VideoService.getVideoDuration(videoUrl)`: cache, URL
validation, one direct probe, no fallback. -/
def getVideoDurationR (cache : List (String × JsNum)) (urlStr : String) (u : UrlInfo)
    (probe : Except Unit JsNum) :
    Except String JsNum × List (String × JsNum) × List DlAct :=
  match jsMapGet cache ("duration:" ++ urlStr) with
  | some d => (Except.ok d, cache, [])
  | none =>
    match validateUrl u with
    | Except.error e => (Except.error e, cache, [])
    | Except.ok _ =>
      match probe with
      | Except.error _ => (Except.error "cannot get duration", cache, [DlAct.directProbe])
      | Except.ok d =>
        if d.falsy || d.isNaN then
          (Except.error "cannot parse duration", cache, [DlAct.directProbe])
        else (Except.ok d, jsMapSet cache ("duration:" ++ urlStr) d, [DlAct.directProbe])

/-- Claim C8 counterexample: (a) the legacy probe accepts and caches a *negative*
duration (-3 seconds), because `!duration || isNaN(duration)` only rejects
zero and `NaN` — the operation does not fail on a non-positive duration as
claimed; (b) the refactored `VideoService.getVideoDuration` performs no
sample-download fallback at all: when the direct probe fails, the operation
fails having performed only the direct probe. -/
theorem duration_probe_claim_fails :
    getVideoDurationL [] "http://v/a.mp4"
        ⟨Except.ok (JsNum.val (-3)), Except.ok (), Except.ok (JsNum.val 1)⟩ =
      (Except.ok (JsNum.val (-3)),
        [("duration:http://v/a.mp4", JsNum.val (-3))], [DlAct.directProbe]) ∧
    getVideoDurationR [] "http://v/a.mp4" ⟨true, "example.com"⟩ (Except.error ()) =
      (Except.error "cannot get duration", [], [DlAct.directProbe]) := by
  constructor
  · decide
  · decide

/-- Claim C8 amended: in the legacy implementation the Duration Cache is consulted
first (a hit performs no external call); on a miss the direct probe runs
first; a failing direct probe triggers the byte-range sample fallback; a
successfully probed duration that is neither zero nor `NaN` is cached and
returned (negative durations included); the operation fails when both
strategies fail or when the probed value is zero or `NaN`.  The refactored
`VideoService` implementation consults the cache first as well but has no
sample fallback: a failing direct probe fails the whole operation. -/
theorem duration_probe_behaviour (cache : List (String × JsNum)) (url : String)
    (env : ProbeEnv) (u : UrlInfo) (probe : Except Unit JsNum) :
    (∀ d, jsMapGet cache ("duration:" ++ url) = some d →
      getVideoDurationL cache url env = (Except.ok d, cache, [])) ∧
    (jsMapGet cache ("duration:" ++ url) = none →
      ∀ d, env.direct = Except.ok d → (d.falsy || d.isNaN) = false →
        getVideoDurationL cache url env =
          (Except.ok d, jsMapSet cache ("duration:" ++ url) d, [DlAct.directProbe])) ∧
    (jsMapGet cache ("duration:" ++ url) = none →
      ∀ e, env.direct = Except.error e →
        DlAct.sampleDownload ∈ (getVideoDurationL cache url env).2.2) ∧
    (jsMapGet cache ("duration:" ++ url) = none →
      ∀ e, env.direct = Except.error e → env.sampleDl = Except.ok () →
        ∀ d, env.sampleProbeRes = Except.ok d → (d.falsy || d.isNaN) = false →
          getVideoDurationL cache url env =
            (Except.ok d, jsMapSet cache ("duration:" ++ url) d,
              [DlAct.directProbe, DlAct.sampleDownload, DlAct.sampleProbe])) ∧
    (jsMapGet cache ("duration:" ++ url) = none →
      ∀ e, env.direct = Except.error e →
        (env.sampleDl = Except.error () ∨ env.sampleProbeRes = Except.error ()) →
        (getVideoDurationL cache url env).1 = Except.error "cannot download sample") ∧
    (jsMapGet cache ("duration:" ++ url) = none →
      ∀ d, env.direct = Except.ok d → (d.falsy || d.isNaN) = true →
        (getVideoDurationL cache url env).1 = Except.error "cannot get duration") ∧
    (∀ d, jsMapGet cache ("duration:" ++ url) = some d →
      getVideoDurationR cache url u probe = (Except.ok d, cache, [])) ∧
    (jsMapGet cache ("duration:" ++ url) = none → validateUrl u = Except.ok () →
      probe = Except.error () →
      getVideoDurationR cache url u probe =
        (Except.error "cannot get duration", cache, [DlAct.directProbe])) := by
  refine ⟨?_, ?_, ?_, ?_, ?_, ?_, ?_, ?_⟩
  · intro d hd
    simp [getVideoDurationL, hd]
  · intro hmiss d hdir hgood
    simp [getVideoDurationL, hmiss, hdir, hgood]
  · intro hmiss e hdir
    rcases henv : env.sampleDl with he | hok
    · simp [getVideoDurationL, hmiss, hdir, henv]
    · rcases hsp : env.sampleProbeRes with he2 | d2
      · simp [getVideoDurationL, hmiss, hdir, henv, hsp]
      · by_cases hg : (d2.falsy || d2.isNaN) = true <;>
          simp [getVideoDurationL, hmiss, hdir, henv, hsp, hg]
  · intro hmiss e hdir hdl d hsp hgood
    simp [getVideoDurationL, hmiss, hdir, hdl, hsp, hgood]
  · intro hmiss e hdir hbad
    rcases hbad with hb | hb
    · simp [getVideoDurationL, hmiss, hdir, hb]
    · rcases henv : env.sampleDl with he | hok
      · simp [getVideoDurationL, hmiss, hdir, henv]
      · simp [getVideoDurationL, hmiss, hdir, henv, hb]
  · intro hmiss d hdir hbad
    simp [getVideoDurationL, hmiss, hdir, hbad]
  · intro d hd
    simp [getVideoDurationR, hd]
  · intro hmiss hvu hprobe
    simp [getVideoDurationR, hmiss, hvu, hprobe]

/-- Witness for C8: on an empty cache with a healthy direct probe returning
120 seconds, the legacy function returns and caches 120 after exactly one
direct probe. -/
theorem duration_probe_behaviour_witness :
    getVideoDurationL [] "http://v/a.mp4"
        ⟨Except.ok (JsNum.val 120), Except.ok (), Except.ok (JsNum.val 1)⟩ =
      (Except.ok (JsNum.val 120),
        [("duration:http://v/a.mp4", JsNum.val 120)], [DlAct.directProbe]) :=
  (duration_probe_behaviour [] "http://v/a.mp4"
      ⟨Except.ok (JsNum.val 120), Except.ok (), Except.ok (JsNum.val 1)⟩
      ⟨true, "example.com"⟩ (Except.ok (JsNum.val 120))).2.1
    (by decide) (JsNum.val 120) rfl (by decide)

/-! ## Duration cache persistence (`src/strmthumbnail/src/services/cacheService.js`)

`CacheService` keeps a JS `Map` plus an `isDirty` flag.  `set` writes the map
and marks dirty; `save` is a no-op while clean, otherwise it serializes
`Object.fromEntries(this.cache)` as JSON into the cache file and clears the
flag; `load` reads the file and `set`s every parsed entry into the map (a
missing file means "start empty").  The durable file is modelled as the
entry list itself: the map's keys are unique strings and its values are the
cached numbers, for which `JSON.stringify`/`JSON.parse` over
`Object.fromEntries`/`Object.entries` is a faithful round trip.  The file
system is assumed writable, as the claim's scenario requires. -/

/-- The in-memory state of one `CacheService` instance. -/
structure CacheState (α : Type) where
  cache : List (String × α)
  isDirty : Bool
deriving DecidableEq, Repr

/-- The durable cache file: `none` when the file does not exist. -/
def FileStore (α : Type) : Type := Option (List (String × α))

/-- A fresh `CacheService` instance before `load`: empty map, clean. -/
def freshCache {α : Type} : CacheState α := ⟨[], false⟩

/-- `CacheService.get(key)`. -/
def CacheState.get {α : Type} (st : CacheState α) (key : String) : Option α :=
  jsMapGet st.cache key

/-- `CacheService.set(key, value)`: write the map, mark dirty. -/
def CacheState.set {α : Type} (st : CacheState α) (key : String) (value : α) : CacheState α :=
  ⟨jsMapSet st.cache key value, true⟩

/-- `CacheService.save()`: skip when clean; otherwise write the whole map to
the file and clear the dirty flag.  Returns the new state and file. -/
def CacheState.save {α : Type} (st : CacheState α) (file : FileStore α) :
    CacheState α × FileStore α :=
  if st.isDirty then (⟨st.cache, false⟩, some st.cache) else (st, file)

/-- `CacheService.load()`: a missing file leaves the instance as it is;
otherwise every stored entry is `Map.set` into the instance's map and the
dirty flag is cleared. -/
def CacheState.load {α : Type} (st : CacheState α) (file : FileStore α) : CacheState α :=
  match file with
  | none => st
  | some entries => ⟨entries.foldl (fun m kv => jsMapSet m kv.1 kv.2) st.cache, false⟩

theorem jsMapGet_set_self {α : Type} (m : List (String × α)) (k : String) (v : α) :
    jsMapGet (jsMapSet m k v) k = some v := by
  induction m with
  | nil => simp [jsMapSet, jsMapGet]
  | cons kv t ih =>
    obtain ⟨k1, v1⟩ := kv
    by_cases h : k1 = k <;> simp [jsMapSet, jsMapGet, h, ih]

theorem jsMapSet_keys {α : Type} (m : List (String × α)) (k : String) (v : α)
    (h : k ∉ m.map Prod.fst) : jsMapSet m k v = m ++ [(k, v)] := by
  induction m with
  | nil => simp [jsMapSet]
  | cons kv t ih =>
    obtain ⟨k1, v1⟩ := kv
    simp only [List.map_cons, List.mem_cons] at h
    push_neg at h
    simp [jsMapSet, Ne.symm h.1, ih h.2]

theorem foldl_jsMapSet_eq_append {α : Type} (l : List (String × α)) :
    ∀ acc : List (String × α), (l.map Prod.fst).Nodup →
      (∀ k, k ∈ l.map Prod.fst → k ∉ acc.map Prod.fst) →
      l.foldl (fun m kv => jsMapSet m kv.1 kv.2) acc = acc ++ l := by
  induction l with
  | nil => intro acc _ _; simp
  | cons kv t ih =>
    intro acc hnd hdisj
    obtain ⟨k1, v1⟩ := kv
    simp only [List.map_cons, List.nodup_cons] at hnd
    have hk1 : k1 ∉ acc.map Prod.fst := hdisj k1 (by simp)
    have step : jsMapSet acc k1 v1 = acc ++ [(k1, v1)] := jsMapSet_keys acc k1 v1 hk1
    have hdisj2 : ∀ k, k ∈ t.map Prod.fst → k ∉ (acc ++ [(k1, v1)]).map Prod.fst := by
      intro k hk
      simp only [List.map_append, List.mem_append, List.map_cons, List.map_nil,
        List.mem_singleton]
      push_neg
      refine ⟨hdisj k (by simp [hk]), ?_⟩
      intro hcontra
      exact hnd.1 (hcontra ▸ hk)
    calc (((k1, v1) :: t).foldl (fun m kv => jsMapSet m kv.1 kv.2) acc)
        = t.foldl (fun m kv => jsMapSet m kv.1 kv.2) (jsMapSet acc k1 v1) := by
          simp [List.foldl_cons]
      _ = t.foldl (fun m kv => jsMapSet m kv.1 kv.2) (acc ++ [(k1, v1)]) := by rw [step]
      _ = (acc ++ [(k1, v1)]) ++ t := ih (acc ++ [(k1, v1)]) hnd.2 hdisj2
      _ = acc ++ (k1, v1) :: t := by simp

theorem mem_keys_jsMapSet {α : Type} (m : List (String × α)) (k k2 : String) (v : α)
    (h : k2 ∈ (jsMapSet m k v).map Prod.fst) : k2 ∈ m.map Prod.fst ∨ k2 = k := by
  induction m with
  | nil => simp [jsMapSet] at h; exact Or.inr h
  | cons kv t ih =>
    obtain ⟨k1, v1⟩ := kv
    by_cases hk : k1 = k
    · simp only [jsMapSet, hk, if_true, List.map_cons, List.mem_cons] at h
      rcases h with h | h
      · exact Or.inr h
      · exact Or.inl (by simp [h])
    · simp only [jsMapSet, hk, if_false, List.map_cons, List.mem_cons] at h
      rcases h with h | h
      · exact Or.inl (by simp [h])
      · rcases ih h with h2 | h2
        · exact Or.inl (by simp [h2])
        · exact Or.inr h2

theorem nodup_keys_jsMapSet {α : Type} (m : List (String × α)) (k : String) (v : α)
    (h : (m.map Prod.fst).Nodup) : ((jsMapSet m k v).map Prod.fst).Nodup := by
  induction m with
  | nil => simp [jsMapSet]
  | cons kv t ih =>
    obtain ⟨k1, v1⟩ := kv
    simp only [List.map_cons, List.nodup_cons] at h
    by_cases hk : k1 = k
    · simp only [jsMapSet, hk, if_true, List.map_cons, List.nodup_cons]
      exact ⟨hk ▸ h.1, h.2⟩
    · simp only [jsMapSet, hk, if_false, List.map_cons, List.nodup_cons]
      refine ⟨?_, ih h.2⟩
      intro hcontra
      rcases mem_keys_jsMapSet t k k1 v hcontra with h2 | h2
      · exact h.1 h2
      · exact hk h2

/-- Claim C9: duration-cache round trip — after `set(url, d)`, `save()`, and a
`load()` on a fresh instance backed by the file the save produced, `get(url)`
returns exactly `d`.  The hypothesis that the starting instance's map has
unique keys is an invariant of every JS `Map`. -/
theorem cache_roundtrip (st : CacheState ℚ) (file : FileStore ℚ) (url : String) (d : ℚ)
    (hnd : (st.cache.map Prod.fst).Nodup) :
    (CacheState.load freshCache ((st.set url d).save file).2).get url = some d := by
  have hdirty : (st.set url d).isDirty = true := rfl
  have hsave : ((st.set url d).save file).2 = some (st.set url d).cache := by
    simp [CacheState.save, hdirty]
  rw [hsave]
  show jsMapGet (((st.set url d).cache).foldl (fun m kv => jsMapSet m kv.1 kv.2) []) url = some d
  rw [foldl_jsMapSet_eq_append ((st.set url d).cache) [] (nodup_keys_jsMapSet st.cache url d hnd)
    (by intro k _; simp)]
  simpa [CacheState.set] using jsMapGet_set_self st.cache url d

/-- Witness for C9: round trip of `120` under key `http://v/a.mp4` starting
from a fresh instance and a missing file. -/
theorem cache_roundtrip_witness :
    (CacheState.load freshCache
      (((freshCache : CacheState ℚ).set "http://v/a.mp4" 120).save none).2).get
        "http://v/a.mp4" = some 120 :=
  cache_roundtrip freshCache none "http://v/a.mp4" 120 (by simp [freshCache])

end StrmThumbnail
